import Mathlib

/-!
Verification of the contextual-bigraph core of the `elsewhere` repository:
the `CtxBigraph` data model and its construction-time invariants
(`src/elsewhere/effects/spacelike.py`), and the `compose` and `ground`
algorithms of `BigraphVerticalGlobal` (`src/elsewhere/runners/bigraph.py`).

The external collaborators — the graph-value backend (the `bigraph`
library) and the symbolic-expression substrate (the `effectful` library) —
are out of scope of the repository and are modelled from their interface
contract in the specification (sections 4.1 and 6); every definition that
does so carries a doc comment starting with "Modelled from the spec".
-/

set_option maxRecDepth 8000

namespace Elsewhere

/-- Named reference (the symbolic substrate's `Operation`): an
identity-keyed placeholder.  Distinct `uid`s model distinct Python object
identities; `label` models `Operation.__name__`, which is used by the
`substitute` helper of `runners/algebra.py` when it merges an accumulated
environment into name-keyed argument maps. -/
structure Op where
  uid : Nat
  label : String
deriving DecidableEq, Repr

/-- Modelled from the spec: concrete graph values of the external
graph-value backend (spec section 6).  A node carries the names of the
edges linked to it and its nested children; an edge carries the names of
the nodes linked to it; `merge` is the nesting-merge and `parallel` the
parallel-merge of a list of place-values. -/
inductive BG where
  | node (name : String) (ports : List String) (children : List BG)
  | edge (name : String) (peers : List String)
  | merge (parts : List BG)
  | parallel (parts : List BG)

mutual

def bgBeq : BG → BG → Bool
  | .node n1 p1 c1, .node n2 p2 c2 => n1 == n2 && p1 == p2 && bgsBeq c1 c2
  | .edge n1 p1, .edge n2 p2 => n1 == n2 && p1 == p2
  | .merge l1, .merge l2 => bgsBeq l1 l2
  | .parallel l1, .parallel l2 => bgsBeq l1 l2
  | _, _ => false

def bgsBeq : List BG → List BG → Bool
  | [], [] => true
  | a :: as, b :: bs => bgBeq a b && bgsBeq as bs
  | _, _ => false

end

mutual

theorem bgBeq_iff : ∀ a b, bgBeq a b = true ↔ a = b
  | .node n1 p1 c1, .node n2 p2 c2 => by
      simp only [bgBeq, Bool.and_eq_true, beq_iff_eq, bgsBeq_iff c1 c2,
        BG.node.injEq, and_assoc]
  | .edge n1 p1, .edge n2 p2 => by
      simp only [bgBeq, Bool.and_eq_true, beq_iff_eq, BG.edge.injEq]
  | .merge l1, .merge l2 => by
      simp only [bgBeq, bgsBeq_iff l1 l2, BG.merge.injEq]
  | .parallel l1, .parallel l2 => by
      simp only [bgBeq, bgsBeq_iff l1 l2, BG.parallel.injEq]
  | .node .., .edge .. => by simp [bgBeq]
  | .node .., .merge .. => by simp [bgBeq]
  | .node .., .parallel .. => by simp [bgBeq]
  | .edge .., .node .. => by simp [bgBeq]
  | .edge .., .merge .. => by simp [bgBeq]
  | .edge .., .parallel .. => by simp [bgBeq]
  | .merge .., .node .. => by simp [bgBeq]
  | .merge .., .edge .. => by simp [bgBeq]
  | .merge .., .parallel .. => by simp [bgBeq]
  | .parallel .., .node .. => by simp [bgBeq]
  | .parallel .., .edge .. => by simp [bgBeq]
  | .parallel .., .merge .. => by simp [bgBeq]

theorem bgsBeq_iff : ∀ as bs, bgsBeq as bs = true ↔ as = bs
  | [], [] => by simp [bgsBeq]
  | a :: as, b :: bs => by
      simp only [bgsBeq, Bool.and_eq_true, bgBeq_iff a b, bgsBeq_iff as bs,
        List.cons.injEq]
  | [], _ :: _ => by simp [bgsBeq]
  | _ :: _, [] => by simp [bgsBeq]

end

instance : DecidableEq BG := fun a b =>
  decidable_of_iff (bgBeq a b = true) (bgBeq_iff a b)

def BG.isNode : BG → Bool
  | .node .. => true
  | _ => false

def BG.isEdge : BG → Bool
  | .edge .. => true
  | _ => false

/-- Modelled from the spec: `node.link(edge)` — the node with the edge's
name added to its ports (the value-returning variant allowed by section 6). -/
def nodeLink : BG → BG → BG
  | .node n ps cs, .edge e _ => .node n (ps ++ [e]) cs
  | b, _ => b

/-- Modelled from the spec: `edge.link(node)` — the edge with the node's
name recorded (the runner returns the linked edge itself). -/
def edgeLink : BG → BG → BG
  | .edge e ns, .node n _ _ => .edge e (ns ++ [n])
  | b, _ => b

/-- Modelled from the spec: `node.nest(place)` — the inner place-value
becomes a child of the node. -/
def nodeNest : BG → BG → BG
  | .node n ps cs, inner => .node n ps (cs ++ [inner])
  | b, _ => b

/-- Modelled from the spec: the backend's canonical unfold producing a
structurally comparable normal form; values built by the combinators above
are already in constructor normal form, so the unfolding is the identity. -/
def unfoldBG (g : BG) : BG := g

/-- `BigraphLocal.bare_equal` (runners/bigraph.py lines 33-39): structural
equality of two fully evaluated bigraphs via canonical unfolding. -/
def bareEqual (a b : BG) : Bool := decide (unfoldBG a = unfoldBG b)

/-- The local combinator vocabulary (`SpacelikeLocal`,
effects/spacelike.py lines 31-57): a closed set of four abstract binary
operations. -/
inductive LocalOp where
  | merge
  | parallel
  | link
  | nest
deriving DecidableEq, Repr

/-- The dispatch table of `BigraphHorizontalLocal` and
`BigraphVerticalLocal` (runners/bigraph.py lines 42-77): `some` concrete
value when the runtime shapes of the arguments match a registered
signature, `none` otherwise.  `merge` and `parallel` are registered at
`(Base, Base)` and accept any two backend values; `link` at
`(Node, Edge)` and `(Edge, Node)`; `nest` at `(Node, Base)`. -/
def interpLocal : LocalOp → BG → BG → Option BG
  | .merge, a, b => some (.merge [a, b])
  | .parallel, a, b => some (.parallel [a, b])
  | .link, a, b =>
      if a.isNode && b.isEdge then some (nodeLink a b)
      else if a.isEdge && b.isNode then some (edgeLink a b)
      else none
  | .nest, a, b => if a.isNode then some (nodeNest a b) else none

/-- Expression trees over the local vocabulary (symbolic substrate):
`var op` is the zero-argument invocation `op()` of a named reference,
`val g` a concrete backend value embedded as a leaf, and `app` an
unevaluated combinator application.  The vocabulary operations are
constructors here, so the free variables of an expression are its `var`
leaves — the "free variables minus vocabulary operations" of the source. -/
inductive Expr where
  | var (op : Op)
  | val (g : BG)
  | app (f : LocalOp) (a b : Expr)
deriving DecidableEq

/-- Free variables of an expression (`fvsof` with the vocabulary
operations already removed). -/
def fvs : Expr → List Op
  | .var op => [op]
  | .val _ => []
  | .app _ a b => fvs a ++ fvs b

/-- First-match lookup in an association list (Python dictionaries keep a
single entry per key, so on dict-shaped inputs this is dict lookup). -/
def alookup {α β : Type} [DecidableEq α] : List (α × β) → α → Option β
  | [], _ => none
  | p :: rest, a => if p.1 = a then some p.2 else alookup rest a

def akeys {α β : Type} (l : List (α × β)) : List α := l.map Prod.fst

/-- Python dict union `a | b`: one entry per key, the right operand's
value winning on collision. -/
def dUnion {α β : Type} [DecidableEq α] (a b : List (α × β)) : List (α × β) :=
  b ++ a.filter fun p => (alookup b p.1).isNone

/-- Evaluation of an expression tree (the substrate's `evaluate` and the
application of a `deffn` under the ambient handler): `ed` is an
interpretation of zero-argument reference invocations (the `bound_edges`
interpretation passed by `compose`); when `loc` is true the four local
combinators are interpreted through `interpLocal` (the `BigraphLocal`
handler installed by `ground`).  A subterm whose argument shapes match no
registered signature is left as a residual expression, never a failure. -/
def evalE (loc : Bool) (ed : List (Op × BG)) : Expr → Expr
  | .var op =>
      match alookup ed op with
      | some g => .val g
      | none => .var op
  | .val g => .val g
  | .app f a b =>
      let a' := evalE loc ed a
      let b' := evalE loc ed b
      if loc then
        match a', b' with
        | .val ga, .val gb =>
            match interpLocal f ga gb with
            | some g => .val g
            | none => .app f (.val ga) (.val gb)
        | a', b' => .app f a' b'
      else .app f a' b'

/-- Substitution of named references by expressions (the substrate's
`deffn(trm, **args)(**vals)` replaces each reference bound as a parameter
by the supplied argument, leaving other free variables untouched). -/
def substVars (σ : List (Op × Expr)) : Expr → Expr
  | .var op =>
      match alookup σ op with
      | some e => e
      | none => .var op
  | .val g => .val g
  | .app f a b => .app f (substVars σ a) (substVars σ b)

/-- The raw record of `CtxBigraph` (effects/spacelike.py lines 66-116)
before its `__post_init__` validation.  Python dictionaries become
association lists; the zero-argument producers of `bound_edges` are pure,
so they are modelled by the edge value they return. -/
structure CtxBigraph where
  name : String
  inner_sites : List (String × Op)
  inner_links : List (String × Op)
  outer_sites : List (String × Op)
  outer_links : List (String × Op)
  root : Expr
  bound_sites : List (Op × Expr)
  bound_edges : List (Op × BG)
  bound_terms : List (List (Op × Expr)) := []
deriving DecidableEq

/-- The `layers` accessor: `bound_terms + [bound_sites]`. -/
def CtxBigraph.layers (c : CtxBigraph) : List (List (Op × Expr)) :=
  c.bound_terms ++ [c.bound_sites]

/-- The `closed` property: no outer links. -/
def CtxBigraph.closed (c : CtxBigraph) : Bool := c.outer_links.isEmpty

/-- All interface references of a fragment (the values of the four
interface mappings), as collected by `__post_init__` into `intf_args`. -/
def intfArgs (c : CtxBigraph) : List Op :=
  (c.inner_sites ++ c.inner_links ++ c.outer_sites ++ c.outer_links).map
    Prod.snd

/-- Global uniqueness of port names across the four interface mappings
(`__post_init__`, "check unique names"). -/
def uniqNames (c : CtxBigraph) : Bool :=
  decide (akeys (c.inner_sites ++ c.inner_links ++ c.outer_sites ++
    c.outer_links)).Nodup

/-- Every `outer_sites` reference has a `bound_sites` entry
(`__post_init__`, first free-variable check). -/
def siteCover (c : CtxBigraph) : Bool :=
  c.outer_sites.all fun p => decide (p.2 ∈ akeys c.bound_sites)

/-- The free variables of `root` lie within `bound_sites`' keys
(`__post_init__`, second free-variable check). -/
def rootScope (c : CtxBigraph) : Bool :=
  (fvs c.root).all fun op => decide (op ∈ akeys c.bound_sites)

/-- One step of the layer scope check: every free variable of the layer is
an interface reference or lies in `bound`. -/
def scopeOk (intf bound : List Op) (layer : List (Op × Expr)) : Bool :=
  layer.all fun p => (fvs p.2).all fun op =>
    decide (op ∈ intf) || decide (op ∈ bound)

/-- The layer scope chain of `__post_init__` (spacelike.py lines 160-163):
after each layer is checked, `bound_args` is reassigned to that layer's
keys — it is not accumulated. -/
def chainOk (intf : List Op) : List Op → List (List (Op × Expr)) → Bool
  | _, [] => true
  | bound, l :: rest => scopeOk intf bound l && chainOk intf (akeys l) rest

/-- `CtxBigraph.__post_init__` (spacelike.py lines 136-163).  The runtime
type assertions are static in this embedding; the remaining checks are
name uniqueness, outer-site coverage, root scope, and the layer scope
chain. -/
def wf (c : CtxBigraph) : Bool :=
  uniqNames c && siteCover c && rootScope c && chainOk (intfArgs c) [] c.layers

/-- Construction of a `CtxBigraph`: the dataclass constructor runs
`__post_init__`, which rejects (raises) when an invariant fails. -/
def mkCtxBigraph (c : CtxBigraph) : Option CtxBigraph := if wf c then some c else none

/-- The merged name-keyed substitution built by the `substitute` helper of
runners/algebra.py: `args | {v.__name__: v}` paired with
`vals | {v.__name__: e}` over the accumulated environment `env`, turned
into a reference-keyed substitution (each `deffn` parameter is the
reference `_args[n]`, applied to `_vals[n]`). -/
def sigmaOf (args : List (String × Op)) (vals : List (String × Expr))
    (env : List (Op × Expr)) : List (Op × Expr) :=
  let aargs := dUnion args (env.map fun p => (p.1.label, p.1))
  let avals := dUnion vals (env.map fun p => (p.1.label, p.2))
  aargs.filterMap fun p => (alookup avals p.1).map fun e => (p.2, e)

/-- The `substitute` helper of runners/algebra.py (lines 20-35): for each
binding of `prog`, substitute interface names and previously bound
references, then evaluate under the ambient interpretation `ev`. -/
def substituteL (ev : Expr → Expr) (prog : List (Op × Expr))
    (args : List (String × Op)) (vals : List (String × Expr))
    (env : List (Op × Expr)) : List (Op × Expr) :=
  prog.map fun p => (p.1, ev (substVars (sigmaOf args vals env) p.2))

/-- Keys of Python dictionaries passed as the `vals` argument of `ground`:
arbitrary objects, either strings or something else. -/
inductive PyKey where
  | str (s : String)
  | obj (n : Nat)
deriving DecidableEq

/-- Values of the `vals` dictionary: backend graph values or arbitrary
other objects. -/
inductive PyVal where
  | bg (g : BG)
  | obj (n : Nat)
deriving DecidableEq

/-- The first assertion of `ground`: every key is a string and every value
a backend value. -/
def wtVals (vals : List (PyKey × PyVal)) : Bool :=
  vals.all fun p =>
    (match p.1 with | .str _ => true | .obj _ => false) &&
    (match p.2 with | .bg _ => true | .obj _ => false)

/-- The well-typed view of the `vals` dictionary, as used for
substitution once the type assertion has passed. -/
def strVals (vals : List (PyKey × PyVal)) : List (String × Expr) :=
  vals.filterMap fun p =>
    match p with
    | (.str s, .bg g) => some (s, Expr.val g)
    | _ => none

/-- The `args` dictionary of `ground`: `inner_sites | inner_links`, the
names still needing concrete values. -/
def requiredArgs (c : CtxBigraph) : List (String × Op) :=
  dUnion c.inner_sites c.inner_links

/-- The interface-coverage assertion of `ground`:
`set(args.keys()).issubset(vals.keys())`. -/
def coveredBy (c : CtxBigraph) (vals : List (PyKey × PyVal)) : Bool :=
  (requiredArgs c).all fun p => (alookup (strVals vals) p.1).isSome

/-- The sequential layer evaluation of `ground` (runners/bigraph.py
lines 104-106): starting from an empty environment, each layer is
substituted and evaluated under the `BigraphLocal` handler, and its
bindings become the environment seen by the next layer. -/
def groundEnv (args : List (String × Op)) (sv : List (String × Expr))
    (lys : List (List (Op × Expr))) : List (Op × Expr) :=
  lys.foldl (fun env layer => substituteL (evalE true []) layer args sv env) []

/-- `BigraphVerticalGlobal.ground` (runners/bigraph.py lines 91-107):
after the type, closedness and coverage assertions, the layers are
evaluated sequentially under the `BigraphLocal` handler, each layer's
bindings replacing the accumulated environment, and finally `root` is
substituted and evaluated.  The returned expression is `Expr.val` of a
bare bigraph when evaluation resolves fully, a residual expression
otherwise. -/
def ground (prog : CtxBigraph) (vals : List (PyKey × PyVal)) : Option Expr :=
  if !wtVals vals then none
  else if !prog.closed then none
  else if !coveredBy prog vals then none
  else
    some (evalE true []
      (substVars (sigmaOf (requiredArgs prog) (strVals vals)
        (groundEnv (requiredArgs prog) (strVals vals) prog.layers))
        prog.root))

/-- `BigraphInterface` (spacelike.py lines 166-193): two string-to-string
mappings; its `__post_init__` type checks are static here. -/
structure BigraphInterface where
  sites : List (String × String)
  links : List (String × String)
deriving DecidableEq

/-- The link-coupling map of `compose` (runners/bigraph.py line 121):
for each outer-link port name of `inner`, a reference-expression for the
matching inner-link reference of `outer`; `none` models the `KeyError`
raised when a name is absent. -/
def boundLinksOf (outer : CtxBigraph) (i : BigraphInterface) (inner : CtxBigraph) :
    Option (List (String × Expr)) :=
  inner.outer_links.mapM fun p => do
    let xn ← alookup i.links p.1
    let xop ← alookup outer.inner_links xn
    pure (p.1, Expr.var xop)

/-- The new binding layer of `compose` (runners/bigraph.py line 150):
each inner-site reference of `outer` is mapped to the matching bound-site
content of `inner`, with `inner`'s outer-link references substituted by
the link-coupling map. -/
def couplingLayer (outer : CtxBigraph) (i : BigraphInterface) (inner : CtxBigraph) :
    Option (List (Op × Expr)) := do
  let bls ← boundLinksOf outer i inner
  outer.inner_sites.mapM fun p => do
    let qn ← alookup i.sites p.1
    let qop ← alookup inner.outer_sites qn
    let t ← alookup inner.bound_sites qop
    pure (p.2, evalE false [] (substVars (sigmaOf inner.outer_links bls []) t))

/-- Port-name qualification after composition: `f"{name}.{n}"`. -/
def qualify (name : String) (l : List (String × Op)) : List (String × Op) :=
  l.map fun p => (name ++ "." ++ p.1, p.2)

/-- The eager rewriting of a binding layer under the merged edge-binding
interpretation (`bind_edges` at runners/bigraph.py lines 130 and 147). -/
def rewriteLayer (bes : List (Op × BG)) (l : List (Op × Expr)) :
    List (Op × Expr) :=
  l.map fun p => (p.1, evalE false bes p.2)

/-- The composite record built by `compose` (runners/bigraph.py lines
133-151) from the coupling layer `cl`, before re-validation. -/
def compBody (outer : CtxBigraph) (inner : CtxBigraph) (cl : List (Op × Expr)) : CtxBigraph :=
  { name := outer.name ++ "*" ++ inner.name
    inner_sites := qualify inner.name inner.inner_sites
    inner_links := qualify inner.name inner.inner_links
    outer_sites := qualify outer.name outer.outer_sites
    outer_links := qualify outer.name outer.outer_links
    root := outer.root
    bound_sites := outer.bound_sites
    bound_edges := dUnion inner.bound_edges outer.bound_edges
    bound_terms := (inner.bound_terms ++ [cl] ++ outer.bound_terms).map
      (rewriteLayer (dUnion inner.bound_edges outer.bound_edges)) }

/-- `BigraphVerticalGlobal.compose` (runners/bigraph.py lines 109-151).
The synthesized fragment is re-validated by the `CtxBigraph` constructor,
so the result is `none` when an interface name cannot be resolved or the
composite violates an invariant. -/
def compose (outer : CtxBigraph) (i : BigraphInterface) (inner : CtxBigraph) : Option CtxBigraph := do
  let cl ← couplingLayer outer i inner
  mkCtxBigraph (compBody outer inner cl)

/-! The worked scenario of the specification (section 8) and of
`tests/runners/test_bigraph.py` (`TestBigraphGlobal`): the fragments `H`
and `F`, the interface `I`, and the hand-built expected composite. -/

def p0 : Op := ⟨0, "p0"⟩
def p1 : Op := ⟨1, "p1"⟩
def p2 : Op := ⟨2, "p2"⟩
def x0 : Op := ⟨3, "x0"⟩
def x1 : Op := ⟨4, "x1"⟩
def q0H : Op := ⟨5, "q0"⟩
def q1H : Op := ⟨6, "q1"⟩
def q0F : Op := ⟨7, "q0"⟩
def q1F : Op := ⟨8, "q1"⟩
def q2F : Op := ⟨9, "q2"⟩
def y0 : Op := ⟨10, "y0"⟩
def y1 : Op := ⟨11, "y1"⟩

def bgn (s : String) : BG := BG.node s [] []
def e0 : BG := BG.edge "e0" []
def e1 : BG := BG.edge "e1" []
def e2 : BG := BG.edge "e2" []

/-- The outer fragment `H`: inner sites `p0,p1,p2`, inner links `x0,x1`,
outer sites `q0,q1`, root `parallel(q0(), q1())`, with `q0` bound to
`nest(link(v0,e0), merge(p0(), nest(v2,p1())))`, `q1` bound to
`nest(link(link(v4,e0),e2), p2())`, and `x0`, `x1` tied by `bound_edges`
producers to the concrete edges `e0` and `e2`. -/
def fragH : CtxBigraph where
  name := "H"
  inner_sites := [("p0", p0), ("p1", p1), ("p2", p2)]
  inner_links := [("x0", x0), ("x1", x1)]
  outer_sites := [("q0", q0H), ("q1", q1H)]
  outer_links := []
  root := .app .parallel (.var q0H) (.var q1H)
  bound_sites :=
    [(q0H, .app .nest (.app .link (.val (bgn "v0")) (.val e0))
        (.app .merge (.var p0) (.app .nest (.val (bgn "v2")) (.var p1)))),
     (q1H, .app .nest (.app .link (.app .link (.val (bgn "v4")) (.val e0))
        (.val e2)) (.var p2))]
  bound_edges := [(x0, e0), (x1, e2)]
  bound_terms := []

/-- The inner fragment `F`: outer sites `q0,q1,q2`, outer links `y0,y1`,
root `parallel(q0(), parallel(q1(), q2()))`, with the bindings of the
test: `q0 ↦ link(link(v1, y0()), e1)`, `q1 ↦ link(link(v3, e1), y1())`,
`q2 ↦ link(v5, y1())`. -/
def fragF : CtxBigraph where
  name := "F"
  inner_sites := []
  inner_links := []
  outer_sites := [("q0", q0F), ("q1", q1F), ("q2", q2F)]
  outer_links := [("y0", y0), ("y1", y1)]
  root := .app .parallel (.var q0F) (.app .parallel (.var q1F) (.var q2F))
  bound_sites :=
    [(q0F, .app .link (.app .link (.val (bgn "v1")) (.var y0)) (.val e1)),
     (q1F, .app .link (.app .link (.val (bgn "v3")) (.val e1)) (.var y1)),
     (q2F, .app .link (.val (bgn "v5")) (.var y1))]
  bound_edges := []
  bound_terms := []

/-- The interface between `H` and `F`: sites pair `p_i` with `q_i` for
`i` in 0..2, links pair `y_i` with `x_i` for `i` in 0..1. -/
def intfHF : BigraphInterface where
  sites := [("p0", "q0"), ("p1", "q1"), ("p2", "q2")]
  links := [("y0", "x0"), ("y1", "x1")]

/-- The hand-built expected composite
`v0{e0}.(v1{e0,e1} | v2.v3{e1,e2}) || v4{e0,e2}.v5{e2}`. -/
def gExpected : BG :=
  BG.parallel
    [BG.node "v0" ["e0"]
       [BG.merge
          [BG.node "v1" ["e0", "e1"] [],
           BG.node "v2" [] [BG.node "v3" ["e1", "e2"] []]]],
     BG.node "v4" ["e0", "e2"] [BG.node "v5" ["e2"] []]]

/-- Composing and then grounding with an empty value map yields a bare
bigraph structurally equal (by canonical unfolding) to `g`. -/
def groundsTo (o : Option CtxBigraph) (vals : List (PyKey × PyVal)) (g : BG) :
    Bool :=
  match o.bind fun c => ground c vals with
  | some (.val g2) => bareEqual g2 g
  | _ => false

example : wf fragH = true := by decide
example : wf fragF = true := by decide
example : groundsTo (compose fragH intfHF fragF) [] gExpected = true := by
  decide

/-! Small concrete fragments used to instantiate the theorems below. -/

def wOp : Op := ⟨20, "w"⟩
def aOp : Op := ⟨21, "a"⟩
def qOp : Op := ⟨22, "q"⟩
def lOp : Op := ⟨23, "l"⟩
def eE : BG := BG.edge "E" []
def eE2 : BG := BG.edge "E2" []

/-- A default fragment (for `Option.getD`). -/
def trivCtx : CtxBigraph where
  name := ""
  inner_sites := []
  inner_links := []
  outer_sites := []
  outer_links := []
  root := .val (bgn "t")
  bound_sites := []
  bound_edges := []
  bound_terms := []

/-- An outer fragment with a pre-existing `bound_terms` layer that
references the edge reference `w`, which its own `bound_edges` ties to
the concrete edge `E`. -/
def oEx : CtxBigraph where
  name := "O"
  inner_sites := []
  inner_links := [("w", wOp)]
  outer_sites := [("q", qOp)]
  outer_links := []
  root := .var qOp
  bound_sites := [(qOp, .var aOp)]
  bound_edges := [(wOp, eE)]
  bound_terms := [[(aOp, .var wOp)]]

/-- `oEx` with one open outer link. -/
def oEx2 : CtxBigraph where
  name := "O"
  inner_sites := []
  inner_links := [("w", wOp)]
  outer_sites := [("q", qOp)]
  outer_links := [("l", lOp)]
  root := .var qOp
  bound_sites := [(qOp, .var aOp)]
  bound_edges := [(wOp, eE)]
  bound_terms := [[(aOp, .var wOp)]]

/-- A trivial inner fragment whose `bound_edges` assigns a different
producer to the same reference `w` as `oEx` does. -/
def inEx : CtxBigraph where
  name := "N"
  inner_sites := []
  inner_links := []
  outer_sites := []
  outer_links := []
  root := .val (bgn "z")
  bound_sites := []
  bound_edges := [(wOp, eE2)]
  bound_terms := []

def iEx : BigraphInterface := ⟨[], []⟩

def cEx : CtxBigraph := (compose oEx iEx inEx).getD trivCtx

def cEx2 : CtxBigraph := (compose oEx2 iEx inEx).getD trivCtx

example : compose oEx iEx inEx = some cEx := by decide
example : compose oEx2 iEx inEx = some cEx2 := by decide

def sOp : Op := ⟨24, "s"⟩
def xOp : Op := ⟨25, "x"⟩
def rOp : Op := ⟨26, "r"⟩
def tOp : Op := ⟨27, "t"⟩
def yOp : Op := ⟨28, "y"⟩

/-- An outer fragment with one inner site `s` and one inner link `x`. -/
def oEx3 : CtxBigraph where
  name := "A"
  inner_sites := [("s", sOp)]
  inner_links := [("x", xOp)]
  outer_sites := [("r", rOp)]
  outer_links := []
  root := .var rOp
  bound_sites := [(rOp, .var sOp)]
  bound_edges := [(xOp, eE)]
  bound_terms := []

/-- An inner fragment with one outer site `t` and one outer link `y`. -/
def inEx3 : CtxBigraph where
  name := "B"
  inner_sites := []
  inner_links := []
  outer_sites := [("t", tOp)]
  outer_links := [("y", yOp)]
  root := .var tOp
  bound_sites := [(tOp, .app .link (.val (bgn "n")) (.var yOp))]
  bound_edges := []
  bound_terms := []

def iEx3 : BigraphInterface := ⟨[("s", "t")], [("y", "x")]⟩

def cEx3 : CtxBigraph := (compose oEx3 iEx3 inEx3).getD trivCtx

example : compose oEx3 iEx3 inEx3 = some cEx3 := by decide

def caOp : Op := ⟨30, "ca"⟩
def cbOp : Op := ⟨31, "cb"⟩
def ccOp : Op := ⟨32, "cc"⟩

/-- A binding chain of three layers whose last layer references a key
bound only by the first layer. -/
def chain3 : CtxBigraph where
  name := "C"
  inner_sites := []
  inner_links := []
  outer_sites := []
  outer_links := []
  root := .var ccOp
  bound_sites := [(ccOp, .var caOp)]
  bound_edges := []
  bound_terms := [[(caOp, .val (bgn "z"))], [(cbOp, .var caOp)]]

def iD : Op := ⟨33, "i"⟩
def oD : Op := ⟨34, "o"⟩

/-- A closed fragment whose inner interface requires one value, named
`"i"`. -/
def fragD : CtxBigraph where
  name := "D"
  inner_sites := [("i", iD)]
  inner_links := []
  outer_sites := [("o", oD)]
  outer_links := []
  root := .var oD
  bound_sites := [(oD, .var iD)]
  bound_edges := []
  bound_terms := []

def goodVals : List (PyKey × PyVal) := [(.str "i", .bg (bgn "V"))]

/-- `goodVals` extended with an ill-typed extra entry. -/
def badVals : List (PyKey × PyVal) := goodVals ++ [(.obj 0, .obj 0)]

example : wf fragD = true := by decide
example : ground fragD goodVals = some (.val (bgn "V")) := by decide

/-! Helper lemmas about association-list lookup and the shape of
successful compositions. -/

theorem alookup_append {α β : Type} [DecidableEq α]
    (l1 l2 : List (α × β)) (a : α) :
    alookup (l1 ++ l2) a =
      match alookup l1 a with
      | some v => some v
      | none => alookup l2 a := by
  induction l1 with
  | nil => simp [alookup]
  | cons p rest ih =>
      simp only [List.cons_append, alookup]
      split
      · rfl
      · exact ih

theorem alookup_filterOut {α β : Type} [DecidableEq α]
    (a b : List (α × β)) (k : α) :
    alookup (a.filter fun p => (alookup b p.1).isNone) k =
      match alookup b k with
      | some _ => none
      | none => alookup a k := by
  induction a with
  | nil => cases h : alookup b k <;> simp [alookup]
  | cons p rest ih =>
      by_cases hp : (alookup b p.1).isNone
      · rw [List.filter_cons_of_pos (by simpa using hp)]
        by_cases hk : p.1 = k
        · subst hk
          cases h : alookup b p.1 with
          | some v => rw [h] at hp; simp at hp
          | none => simp [alookup]
        · simp only [alookup, if_neg hk]
          exact ih
      · rw [List.filter_cons_of_neg (by simpa using hp)]
        by_cases hk : p.1 = k
        · subst hk
          cases h : alookup b p.1 with
          | some v => rw [ih, h]
          | none => rw [h] at hp; simp at hp
        · simp only [ih, alookup, if_neg hk]

theorem alookup_dUnion {α β : Type} [DecidableEq α]
    (a b : List (α × β)) (k : α) :
    alookup (dUnion a b) k =
      match alookup b k with
      | some v => some v
      | none => alookup a k := by
  rw [dUnion, alookup_append, alookup_filterOut]
  cases alookup b k <;> rfl

theorem alookup_isSome_of_mem {α β : Type} [DecidableEq α]
    {l : List (α × β)} {k : α} (h : k ∈ akeys l) :
    (alookup l k).isSome := by
  induction l with
  | nil => simp [akeys] at h
  | cons p rest ih =>
      by_cases hk : p.1 = k
      · simp [alookup, hk]
      · simp only [akeys, List.map_cons, List.mem_cons] at h
        rcases h with h | h
        · exact absurd h.symm hk
        · simpa [alookup, hk] using ih (by simpa [akeys] using h)

theorem filterMap_congr {α β : Type} {f g : α → Option β} :
    ∀ {l : List α}, (∀ a ∈ l, f a = g a) →
      l.filterMap f = l.filterMap g := by
  intro l
  induction l with
  | nil => intro _; rfl
  | cons x xs ih =>
      intro h
      rw [List.filterMap_cons, List.filterMap_cons,
        h x (List.mem_cons_self x xs), ih fun a ha => h a (List.mem_cons_of_mem x ha)]

theorem all_congr {α : Type} {f g : α → Bool} :
    ∀ {l : List α}, (∀ a ∈ l, f a = g a) → l.all f = l.all g := by
  intro l
  induction l with
  | nil => intro _; rfl
  | cons x xs ih =>
      intro h
      rw [List.all_cons, List.all_cons, h x (List.mem_cons_self x xs),
        ih fun a ha => h a (List.mem_cons_of_mem x ha)]

theorem bindSome {α β : Type} {x : Option α} {f : α → Option β} {r : β}
    (h : (x >>= f) = some r) : ∃ a, x = some a ∧ f a = some r := by
  cases x with
  | none => exact absurd h (by simp)
  | some a => exact ⟨a, rfl, h⟩

theorem mapM_some {α β : Type} (f : α → Option β) :
    ∀ (l : List α) (r : List β), l.mapM f = some r →
      ∀ a ∈ l, ∃ b, f a = some b := by
  intro l
  induction l with
  | nil => intro r _ a ha; exact absurd ha (List.not_mem_nil a)
  | cons x xs ih =>
      intro r h a ha
      rw [List.mapM_cons] at h
      cases hx : f x with
      | none => rw [hx] at h; simp at h
      | some b =>
          rw [hx] at h
          cases hxs : xs.mapM f with
          | none => rw [hxs] at h; simp at h
          | some bs =>
              rcases List.mem_cons.mp ha with rfl | ha2
              · exact ⟨b, hx⟩
              · exact ih bs hxs a ha2

theorem compose_some {o : CtxBigraph} {i : BigraphInterface} {inn : CtxBigraph} {c : CtxBigraph}
    (h : compose o i inn = some c) :
    ∃ cl, couplingLayer o i inn = some cl ∧
      wf (compBody o inn cl) = true ∧ c = compBody o inn cl := by
  unfold compose at h
  cases hcl : couplingLayer o i inn with
  | none => rw [hcl] at h; simp at h
  | some cl =>
      rw [hcl] at h
      change mkCtxBigraph (compBody o inn cl) = some c at h
      by_cases hwf : wf (compBody o inn cl) = true
      · refine ⟨cl, rfl, hwf, ?_⟩
        rw [mkCtxBigraph, if_pos hwf] at h
        exact (Option.some.injEq _ _ ▸ h).symm
      · rw [mkCtxBigraph, if_neg hwf] at h
        exact absurd h (by simp)

/-- The forward-reference scope chain reformulated layer by layer: each
layer is paired with the keys of the layer immediately preceding it (the
first layer with `prev`), and must draw its free variables from the
interface references and those keys only. -/
def chainFrom (intf prev : List Op) (ls : List (List (Op × Expr))) : Bool :=
  (ls.zip (prev :: ls.map akeys)).all fun pr => scopeOk intf pr.2 pr.1

theorem chain_eq (intf : List Op) :
    ∀ (ls : List (List (Op × Expr))) (prev : List Op),
      chainOk intf prev ls = chainFrom intf prev ls := by
  intro ls
  induction ls with
  | nil => intro prev; rfl
  | cons l rest ih =>
      intro prev
      have h1 : chainOk intf prev (l :: rest) =
          (scopeOk intf prev l && chainOk intf (akeys l) rest) := rfl
      have h2 : chainFrom intf prev (l :: rest) =
          (scopeOk intf prev l && chainFrom intf (akeys l) rest) := rfl
      rw [h1, h2, ih]

/-- Modelled from the spec: the forward-reference rule as worded in
section 3 — each layer may reference the interface references and the
keys bound by all strictly earlier layers, with `bound` accumulating from
layer to layer. -/
def chainAccum (intf : List Op) : List Op → List (List (Op × Expr)) → Bool
  | _, [] => true
  | bound, l :: rest =>
      scopeOk intf bound l && chainAccum intf (bound ++ akeys l) rest

/-! The claims. -/

/-- C1: composing the fragments `H` and `F` via the interface pairing
`p_i` with `q_i` for sites and `y_i` with `x_i` for links, and grounding
the composite with an empty value map, yields a concrete graph value
structurally equal, by canonical unfolding, to the hand-built graph
`v0` linked to `e0` nesting the merge of `v1` (linked to `e0`,`e1`) and
`v2` nesting `v3` (linked to `e1`,`e2`), in parallel with `v4` (linked to
`e0`,`e2`) nesting `v5` (linked to `e2`). -/
theorem c1_worked_scenario :
    wf fragH = true ∧ wf fragF = true ∧
    groundsTo (compose fragH intfHF fragF) [] gExpected = true :=
  ⟨by decide, by decide, by decide⟩

/-- C2, counterexample: a fragment satisfying every other invariant,
whose third binding layer references a key bound only by its first layer.
The accumulated forward-reference rule of the claim accepts it, but
construction fails: `__post_init__` reassigns `bound_args` to the
previous layer's keys instead of accumulating them. -/
theorem c2_counterexample :
    uniqNames chain3 = true ∧ siteCover chain3 = true ∧
    rootScope chain3 = true ∧
    chainAccum (intfArgs chain3) [] chain3.layers = true ∧
    mkCtxBigraph chain3 = none := by decide

/-- C2, amended: construction succeeds exactly when the port names are
globally unique, every outer site is covered by `bound_sites`, the root's
free variables lie in `bound_sites`' keys, and each binding layer's free
variables (minus vocabulary operations) are drawn from the interface
references and the keys of the immediately preceding layer only — not
from all strictly earlier layers. -/
theorem c2_amended :
    ∀ c : CtxBigraph, (mkCtxBigraph c).isSome =
      (uniqNames c && siteCover c && rootScope c &&
        chainFrom (intfArgs c) [] c.layers) := by
  intro c
  have h : (mkCtxBigraph c).isSome = wf c := by
    cases hw : wf c
    · simp [mkCtxBigraph, hw]
    · simp [mkCtxBigraph, hw]
  rw [h, wf, chain_eq]

/-- C3, counterexample: composing `oEx` (whose single pre-existing
`bound_terms` layer references the edge reference `w`, tied by
`bound_edges` to the concrete edge `E`) with a trivial inner fragment
rewrites that layer under the merged edge-binding interpretation, so the
composite's trailing layers are not `oEx.bound_terms` unchanged as the
claim states: the reference has been replaced by the concrete edge. -/
theorem c3_counterexample :
    compose oEx iEx inEx = some cEx ∧
    cEx.bound_terms = [[], [(aOp, Expr.val eE)]] ∧
    oEx.bound_terms = [[(aOp, Expr.var wOp)]] ∧
    cEx.bound_terms.drop (inEx.bound_terms.length + 1) ≠
      oEx.bound_terms := by decide

/-- C3, amended: for every successful composition, the result's `root`
and `bound_sites` are `outer`'s unchanged, and its `bound_terms` is the
concatenation of `inner`'s layers, the new coupling layer, and `outer`'s
layers, with every one of those layers — `outer`'s included — rewritten
under the merged edge-binding interpretation. -/
theorem c3_amended :
    ∀ (o : CtxBigraph) (i : BigraphInterface) (inn : CtxBigraph) (c : CtxBigraph),
      compose o i inn = some c →
      c.root = o.root ∧ c.bound_sites = o.bound_sites ∧
      ∃ cl, couplingLayer o i inn = some cl ∧
        c.bound_terms = (inn.bound_terms ++ [cl] ++ o.bound_terms).map
          (rewriteLayer (dUnion inn.bound_edges o.bound_edges)) := by
  intro o i inn c h
  obtain ⟨cl, hcl, _, hc⟩ := compose_some h
  subst hc
  exact ⟨rfl, rfl, cl, hcl, rfl⟩

/-- C3, witness for the amended claim at the concrete composition of
`oEx` and `inEx`. -/
theorem c3_amended_witness :
    cEx.root = oEx.root ∧ cEx.bound_sites = oEx.bound_sites ∧
    ∃ cl, couplingLayer oEx iEx inEx = some cl ∧
      cEx.bound_terms = (inEx.bound_terms ++ [cl] ++ oEx.bound_terms).map
        (rewriteLayer (dUnion inEx.bound_edges oEx.bound_edges)) :=
  c3_amended oEx iEx inEx cEx (by decide)

/-- C5: when the two operands' `bound_edges` both assign a producer to
the same reference, the composite's `bound_edges` keeps the producer of
`outer` — the fragment written first in `compose(outer, interface,
inner)` — because the Python union `inner.bound_edges |
outer.bound_edges` lets the right operand win. -/
theorem c5_bound_edges_outer_wins :
    ∀ (o : CtxBigraph) (i : BigraphInterface) (inn : CtxBigraph) (c : CtxBigraph) (k : Op) (po pi : BG),
      compose o i inn = some c →
      alookup o.bound_edges k = some po →
      alookup inn.bound_edges k = some pi →
      alookup c.bound_edges k = some po := by
  intro o i inn c k po pi h ho _
  obtain ⟨cl, _, _, hc⟩ := compose_some h
  subst hc
  show alookup (dUnion inn.bound_edges o.bound_edges) k = some po
  rw [alookup_dUnion, ho]

/-- C5, witness: `oEx` and `inEx` tie the same reference `w` to the
distinct edges `E` and `E2`; the composite keeps `outer`'s edge `E`. -/
theorem c5_witness : alookup cEx.bound_edges wOp = some eE :=
  c5_bound_edges_outer_wins oEx iEx inEx cEx wOp eE eE2
    (by decide) (by decide) (by decide)

/-- C8: the composite's `outer_links` are exactly `outer`'s, with each
port name qualified by `outer`'s name and a separator, so the composite
is closed exactly when `outer` is — independently of `inner`. -/
theorem c8_closed_inherited :
    ∀ (o : CtxBigraph) (i : BigraphInterface) (inn : CtxBigraph) (c : CtxBigraph),
      compose o i inn = some c →
      c.outer_links = qualify o.name o.outer_links ∧
      c.closed = o.closed := by
  intro o i inn c h
  obtain ⟨cl, _, _, hc⟩ := compose_some h
  subst hc
  refine ⟨rfl, ?_⟩
  show (qualify o.name o.outer_links).isEmpty = o.outer_links.isEmpty
  cases o.outer_links <;> rfl

/-- C8, witness at the composition of `oEx2` (one open outer link) with
`inEx`. -/
theorem c8_witness :
    cEx2.outer_links = qualify oEx2.name oEx2.outer_links ∧
    cEx2.closed = oEx2.closed :=
  c8_closed_inherited oEx2 iEx inEx cEx2 (by decide)

/-- C9: a successful composition resolves, for every outer-link port
name of `inner`, an entry in the interface's link map and then a matching
inner-link reference of `outer`; and for every inner-site port name of
`outer`, an entry in the interface's site map and then a matching
outer-site reference of `inner` — a port missing from the interface, or
an interface name missing from the fragment, makes composition fail. -/
theorem c9_interface_totality :
    ∀ (o : CtxBigraph) (i : BigraphInterface) (inn : CtxBigraph) (c : CtxBigraph),
      compose o i inn = some c →
      (∀ p ∈ akeys inn.outer_links,
        ∃ xn xop, alookup i.links p = some xn ∧
          alookup o.inner_links xn = some xop) ∧
      (∀ s ∈ akeys o.inner_sites,
        ∃ qn qop, alookup i.sites s = some qn ∧
          alookup inn.outer_sites qn = some qop) := by
  intro o i inn c h
  obtain ⟨cl, hcl, _, _⟩ := compose_some h
  unfold couplingLayer at hcl
  cases hbl : boundLinksOf o i inn with
  | none => rw [hbl] at hcl; simp at hcl
  | some bls =>
      rw [hbl] at hcl
      change o.inner_sites.mapM _ = some cl at hcl
      constructor
      · intro p hp
        obtain ⟨pe, hpe, hfst⟩ := List.mem_map.mp hp
        unfold boundLinksOf at hbl
        obtain ⟨b, hb⟩ := mapM_some _ inn.outer_links bls hbl pe hpe
        obtain ⟨xn, h1, hb2⟩ := bindSome hb
        obtain ⟨xop, h2, _⟩ := bindSome hb2
        exact hfst ▸ ⟨xn, xop, h1, h2⟩
      · intro s hs
        obtain ⟨se, hse, hfst⟩ := List.mem_map.mp hs
        obtain ⟨b, hb⟩ := mapM_some _ o.inner_sites cl hcl se hse
        obtain ⟨qn, h1, hb2⟩ := bindSome hb
        obtain ⟨qop, h2, _⟩ := bindSome hb2
        exact hfst ▸ ⟨qn, qop, h1, h2⟩

theorem ground_isSome (f : CtxBigraph) (vals : List (PyKey × PyVal)) :
    (ground f vals).isSome =
      (wtVals vals && f.closed && coveredBy f vals) := by
  cases hw : wtVals vals <;> cases hc : f.closed <;>
    cases hcov : coveredBy f vals <;> simp [ground, hw, hc, hcov]

theorem wtVals_single (k : String) (g : BG) :
    wtVals [(.str k, .bg g)] = true := rfl

theorem wtVals_append (v1 v2 : List (PyKey × PyVal)) :
    wtVals (v1 ++ v2) = (wtVals v1 && wtVals v2) := by
  simp [wtVals, List.all_append]

theorem strVals_append (v1 v2 : List (PyKey × PyVal)) :
    strVals (v1 ++ v2) = strVals v1 ++ strVals v2 := by
  simp [strVals, List.filterMap_append]

theorem akeys_envNames (env : List (Op × Expr)) :
    akeys (env.map fun p => (p.1.label, p.1)) =
      akeys (env.map fun p => (p.1.label, p.2)) := by
  simp [akeys, List.map_map]

theorem sigmaOf_ext (args : List (String × Op))
    (sv sv' : List (String × Expr)) (env : List (Op × Expr))
    (hext : ∀ n, n ∈ akeys args → alookup sv' n = alookup sv n) :
    sigmaOf args sv' env = sigmaOf args sv env := by
  unfold sigmaOf
  apply filterMap_congr
  intro p hp
  have hlk : alookup (dUnion sv' (env.map fun p => (p.1.label, p.2))) p.1 =
      alookup (dUnion sv (env.map fun p => (p.1.label, p.2))) p.1 := by
    rw [alookup_dUnion, alookup_dUnion]
    cases he : alookup (env.map fun p => (p.1.label, p.2)) p.1 with
    | some v => rfl
    | none =>
        rcases List.mem_append.mp hp with hp1 | hp2
        · obtain ⟨q, hq, hqe⟩ := List.mem_map.mp hp1
          have hm : p.1 ∈ akeys (env.map fun p => (p.1.label, p.2)) := by
            rw [← akeys_envNames]
            exact List.mem_map.mpr ⟨(q.1.label, q.1), List.mem_map.mpr ⟨q, hq, rfl⟩, by rw [← hqe]⟩
          have := alookup_isSome_of_mem hm
          rw [he] at this
          exact absurd this (by simp)
        · have hpa : p ∈ args := (List.mem_filter.mp hp2).1
          exact hext p.1 (List.mem_map.mpr ⟨p, hpa, rfl⟩)
  rw [hlk]

theorem substituteL_ext (ev : Expr → Expr) (lay : List (Op × Expr))
    (args : List (String × Op)) (sv sv' : List (String × Expr))
    (env : List (Op × Expr))
    (hext : ∀ n, n ∈ akeys args → alookup sv' n = alookup sv n) :
    substituteL ev lay args sv' env = substituteL ev lay args sv env := by
  unfold substituteL
  rw [sigmaOf_ext args sv sv' env hext]

theorem groundEnv_ext (args : List (String × Op))
    (sv sv' : List (String × Expr))
    (hext : ∀ n, n ∈ akeys args → alookup sv' n = alookup sv n) :
    ∀ (lys : List (List (Op × Expr))) (env : List (Op × Expr)),
      lys.foldl (fun env layer =>
        substituteL (evalE true []) layer args sv' env) env =
      lys.foldl (fun env layer =>
        substituteL (evalE true []) layer args sv env) env := by
  intro lys
  induction lys with
  | nil => intro env; rfl
  | cons l rest ih =>
      intro env
      simp only [List.foldl_cons]
      rw [substituteL_ext (evalE true []) l args sv sv' env hext]
      exact ih _

/-- C6, counterexample: `fragD` is closed and `badVals` supplies a value
for every required name, yet grounding fails, because the type assertion
rejects the ill-typed extra entry — so "fails if and only if some
required name lacks an entry" does not hold as stated. -/
theorem c6_counterexample :
    fragD.closed = true ∧ coveredBy fragD badVals = true ∧
    ground fragD badVals = none := by decide

/-- C6, amended: grounding fails exactly when the values map is
ill-typed, the fragment is not closed, or some name required by the inner
interface is uncovered; grounding a fragment with a non-empty
`outer_links` therefore fails regardless of the supplied values, and a
well-typed extra entry for a name the fragment does not require never
affects the result. -/
theorem c6_grounding_gate :
    ∀ (f : CtxBigraph) (vals : List (PyKey × PyVal)) (k : String) (g : BG),
      ((ground f vals).isSome =
        (wtVals vals && f.closed && coveredBy f vals)) ∧
      (k ∉ akeys (requiredArgs f) →
        ground f (vals ++ [(.str k, .bg g)]) = ground f vals) := by
  intro f vals k g
  refine ⟨ground_isSome f vals, ?_⟩
  intro hk
  have hsv : strVals (vals ++ [(.str k, .bg g)]) =
      strVals vals ++ [(k, .val g)] := by
    rw [strVals_append]
    rfl
  have hext : ∀ n, n ∈ akeys (requiredArgs f) →
      alookup (strVals (vals ++ [(.str k, .bg g)])) n =
        alookup (strVals vals) n := by
    intro n hn
    rw [hsv, alookup_append]
    cases hl : alookup (strVals vals) n with
    | some v => rfl
    | none =>
        have hnk : ¬ (k = n) := fun he => hk (he ▸ hn)
        simp [alookup, hnk]
  have hwt : wtVals (vals ++ [(.str k, .bg g)]) = wtVals vals := by
    rw [wtVals_append, wtVals_single]
    cases wtVals vals <;> rfl
  have hcov : coveredBy f (vals ++ [(.str k, .bg g)]) = coveredBy f vals := by
    unfold coveredBy
    apply all_congr
    intro p hp
    rw [hext p.1 (List.mem_map.mpr ⟨p, hp, rfl⟩)]
  have henv : groundEnv (requiredArgs f)
      (strVals (vals ++ [(.str k, .bg g)])) f.layers =
      groundEnv (requiredArgs f) (strVals vals) f.layers := by
    unfold groundEnv
    exact groundEnv_ext (requiredArgs f) (strVals vals)
      (strVals (vals ++ [(.str k, .bg g)])) hext f.layers []
  have hsig : sigmaOf (requiredArgs f) (strVals (vals ++ [(.str k, .bg g)]))
      (groundEnv (requiredArgs f) (strVals vals) f.layers) =
      sigmaOf (requiredArgs f) (strVals vals)
        (groundEnv (requiredArgs f) (strVals vals) f.layers) :=
    sigmaOf_ext (requiredArgs f) (strVals vals)
      (strVals (vals ++ [(.str k, .bg g)]))
      (groundEnv (requiredArgs f) (strVals vals) f.layers) hext
  unfold ground
  rw [hwt, hcov, henv, hsig]

/-- C6, witness at the concrete fragment `fragD`: the gate
characterization at `goodVals`, and the irrelevance of a well-typed extra
entry for the unused name `zz`. -/
theorem c6_witness :
    ((ground fragD goodVals).isSome =
      (wtVals goodVals && fragD.closed && coveredBy fragD goodVals)) ∧
    ground fragD (goodVals ++ [(.str "zz", .bg (bgn "x"))]) =
      ground fragD goodVals := by
  have h := c6_grounding_gate fragD goodVals "zz" (bgn "x")
  exact ⟨h.1, h.2 (by decide)⟩

/-- C4: grounding is a pure, deterministic function of its inputs — two
calls on the same closed fragment and value map return the same result,
and when both results are bare bigraphs they are structurally equal under
canonical unfolding.  The backend combinators are modelled from the spec
as value-returning (section 6 leaves the choice to the backend), so no
call mutates the fragment or the supplied values. -/
theorem c4_ground_deterministic :
    ∀ (f : CtxBigraph) (vals : List (PyKey × PyVal)) (r1 r2 : Expr),
      ground f vals = some r1 → ground f vals = some r2 →
      r1 = r2 ∧ ∀ g1 g2, r1 = .val g1 → r2 = .val g2 →
        bareEqual g1 g2 = true := by
  intro f vals r1 r2 h1 h2
  rw [h1] at h2
  have hr : r1 = r2 := Option.some.inj h2
  subst hr
  refine ⟨rfl, ?_⟩
  intro g1 g2 hg1 hg2
  rw [hg1] at hg2
  have hg : g1 = g2 := Expr.val.inj hg2
  subst hg
  simp [bareEqual, unfoldBG]

/-- The result of grounding the concrete fragment `fragD`. -/
def resD : Expr := (ground fragD goodVals).getD (.val (bgn "t"))

/-- C4, witness at the concrete grounding of `fragD`. -/
theorem c4_witness :
    resD = resD ∧ ∀ g1 g2, resD = .val g1 → resD = .val g2 →
      bareEqual g1 g2 = true :=
  c4_ground_deterministic fragD goodVals resD resD (by decide) (by decide)

/-- C10: the type assertion of `ground` runs before the closedness and
coverage checks and before any evaluation, so a values map containing a
non-string key or a non-backend value — even as an extra entry for a name
the fragment does not require — makes grounding fail. -/
theorem c10_type_gate :
    ∀ (f : CtxBigraph) (vals : List (PyKey × PyVal)),
      wtVals vals = false → ground f vals = none := by
  intro f vals h
  simp [ground, h]

/-- C10, witness: `fragD` is closed and `badVals` covers its single
required name, yet the ill-typed extra entry makes grounding fail. -/
theorem c10_witness : ground fragD badVals = none :=
  c10_type_gate fragD badVals (by decide)

/-- Modelled from the spec: the accepted argument shapes of the four
combinators (section 4.1) — merge and parallel accept any two backend
values, link couples a node-like and an edge-like value in either
argument order, and nest requires a node as its outer argument. -/
def matchesSig : LocalOp → BG → BG → Bool
  | .merge, _, _ => true
  | .parallel, _, _ => true
  | .link, a, b => (a.isNode && b.isEdge) || (a.isEdge && b.isNode)
  | .nest, a, _ => a.isNode

/-- C7: under the backend interpretation, the dispatch of a local
combinator succeeds exactly when the runtime shapes of its concrete
arguments match one of its registered signatures, and evaluation returns
the dispatched concrete backend value in that case — otherwise it
returns the application itself as a residual symbolic expression, never
an error. -/
theorem c7_shape_dispatch :
    ∀ (f : LocalOp) (a b : BG),
      ((interpLocal f a b).isSome = matchesSig f a b) ∧
      (evalE true [] (.app f (.val a) (.val b)) =
        match interpLocal f a b with
        | some v => .val v
        | none => .app f (.val a) (.val b)) := by
  intro f a b
  constructor
  · cases f with
    | merge => rfl
    | parallel => rfl
    | link =>
        cases h1 : a.isNode && b.isEdge <;>
          cases h2 : a.isEdge && b.isNode <;>
            simp [interpLocal, matchesSig, h1, h2]
    | nest => cases h1 : a.isNode <;> simp [interpLocal, matchesSig, h1]
  · cases h : interpLocal f a b <;> simp [evalE, h]

/-- C9, witness at the concrete composition of `oEx3` (one inner site,
one inner link) with `inEx3` (one outer site, one outer link) along
`iEx3`. -/
theorem c9_witness :
    (∀ p ∈ akeys inEx3.outer_links,
      ∃ xn xop, alookup iEx3.links p = some xn ∧
        alookup oEx3.inner_links xn = some xop) ∧
    (∀ s ∈ akeys oEx3.inner_sites,
      ∃ qn qop, alookup iEx3.sites s = some qn ∧
        alookup inEx3.outer_sites qn = some qop) :=
  c9_interface_totality oEx3 iEx3 inEx3 cEx3 (by decide)

end Elsewhere
